import Mathlib

/-!
Verification of the yubal job system against its specification.

The definitions below are a shallow embedding of the repository's Python
sources:

* `src/yubal/core/jobs.py` — the in-memory `JobStore` (status enum, `Job`
  record, `create_job`, `update_job`, `get_job`, `get_all_jobs`,
  `get_active_job`, `add_log`, `delete_job`, `clear_completed`,
  `_check_timeout`).
* `src/packages/api/src/yubal_api/services/job_event_bus.py` — the
  `JobEventBus` (`emit`, `_safe_put`).
* `src/packages/api/src/yubal_api/services/discography.py` — the
  discography run loop, `_scale_progress`, `_update_content_info`,
  `_AggregatedStats`.
* `src/packages/api/src/yubal_api/services/job_executor.py` — the metadata
  prefetch (`_run_metadata_prefetch`).
* `src/yubal/core/enums.py` — the seven-state `JobStatus` with
  `is_finished`, used by the api layer.

Machine conventions: `datetime` values become `Nat` seconds; `uuid4`
freshness is modelled by a monotone counter (`nextId`); Python `float`
progress values become `ℚ`; `OrderedDict` becomes an insertion-ordered
association list whose keys are unique in every reachable store.
-/

namespace Yubal

/-- Status of a background job (`JobStatus` in `src/yubal/core/jobs.py`:
PENDING, DOWNLOADING, TAGGING, COMPLETE, FAILED). -/
inductive JobStatus where
  | pending
  | downloading
  | tagging
  | complete
  | failed
deriving DecidableEq, Repr

/-- Modelled from the spec: the resolved content descriptor
(`AlbumInfo` from `yubal.core.models`, a module absent from the sources;
the spec describes it as "resolved content descriptor
(title/artist/track-count/etc.)").  The job store treats it as an opaque
payload, so only representative fields are kept. -/
structure AlbumInfo where
  title : String := ""
  artist : String := ""
  trackCount : Nat := 0
deriving DecidableEq, Repr

/-- A log entry for a job (`LogEntry` in `src/yubal/core/jobs.py`). -/
structure LogEntry where
  timestamp : Nat
  step : String
  message : String
  progress : Option ℚ := none
  details : Option (List (String × String)) := none
deriving DecidableEq, Repr

/-- A background sync job (`Job` in `src/yubal/core/jobs.py`). -/
structure Job where
  id : Nat
  url : String
  audioFormat : String := "mp3"
  status : JobStatus := .pending
  progress : ℚ := 0
  message : String := ""
  albumInfo : Option AlbumInfo := none
  logs : List LogEntry := []
  error : Option String := none
  createdAt : Nat
  startedAt : Option Nat := none
  completedAt : Option Nat := none
deriving DecidableEq, Repr

/-- The in-memory job store (`JobStore` in `src/yubal/core/jobs.py`).
`jobs` models the `OrderedDict` as an insertion-ordered association list;
`nextId` models the freshness of `uuid.uuid4()` ids. -/
structure JobStore where
  jobs : List (Nat × Job) := []
  activeJobId : Option Nat := none
  nextId : Nat := 0
deriving DecidableEq, Repr

/-- `JobStore.MAX_JOBS`. -/
def MAX_JOBS : Nat := 50

/-- `JobStore.MAX_LOGS`. -/
def MAX_LOGS : Nat := 100

/-- `JobStore.TIMEOUT_SECONDS` (30 minutes). -/
def TIMEOUT_SECONDS : Nat := 30 * 60

/-- Lookup in the ordered map (`self._jobs.get(job_id)`). -/
def lookupJob : List (Nat × Job) → Nat → Option Job
  | [], _ => none
  | (k, j) :: t, i => if k = i then some j else lookupJob t i

/-- In-place mutation of the job object stored under a key: Python mutates
the `Job` through its reference, leaving the dict order unchanged. -/
def setJob : List (Nat × Job) → Nat → Job → List (Nat × Job)
  | [], _, _ => []
  | (k, j) :: t, i, j' => if k = i then (i, j') :: t else (k, j) :: setJob t i j'

/-- Deletion from the ordered map (`del self._jobs[job_id]`). -/
def removeJob : List (Nat × Job) → Nat → List (Nat × Job)
  | [], _ => []
  | (k, j) :: t, i => if k = i then t else (k, j) :: removeJob t i

/-- The `while len(self._jobs) >= self.MAX_JOBS:` pruning loop of
`create_job`: repeatedly remove the oldest entry (head of the ordered
dict) until the store is below capacity. -/
def pruneJobs : List (Nat × Job) → List (Nat × Job)
  | [] => []
  | x :: t => if (x :: t).length ≥ MAX_JOBS then pruneJobs t else x :: t

/-- The admission check at the top of `create_job`: is there an active job
whose status is not COMPLETE or FAILED? -/
def hasActiveJob (s : JobStore) : Bool :=
  match s.activeJobId with
  | some aid =>
    match lookupJob s.jobs aid with
    | some active => !(active.status == .complete || active.status == .failed)
    | none => false
  | none => false

/-- `JobStore.create_job(url, audio_format)`: returns `none` when a job is
already running (caller answers 409), otherwise prunes the oldest entries
while at capacity, creates a fresh PENDING job and makes it active. -/
def create_job (s : JobStore) (url : String) (audioFormat : String) (now : Nat) :
    Option Job × JobStore :=
  if hasActiveJob s then (none, s)
  else
    let pruned := pruneJobs s.jobs
    let job : Job := { id := s.nextId, url := url, audioFormat := audioFormat, createdAt := now }
    (some job,
      { jobs := pruned ++ [(job.id, job)],
        activeJobId := some job.id,
        nextId := s.nextId + 1 })

/-- The keyword arguments of `JobStore.update_job`; `none` models an
argument left at its `None` default. -/
structure JobUpdate where
  status : Option JobStatus := none
  progress : Option ℚ := none
  message : Option String := none
  albumInfo : Option AlbumInfo := none
  error : Option String := none
  startedAt : Option Nat := none
  completedAt : Option Nat := none
deriving DecidableEq, Repr

/-- The field-by-field `if x is not None: job.x = x` block of
`update_job`. -/
def applyUpdate (j : Job) (u : JobUpdate) : Job :=
  { j with
    status := u.status.getD j.status,
    progress := u.progress.getD j.progress,
    message := u.message.getD j.message,
    albumInfo := u.albumInfo <|> j.albumInfo,
    error := u.error <|> j.error,
    startedAt := u.startedAt <|> j.startedAt,
    completedAt := u.completedAt <|> j.completedAt }

/-- `JobStore.update_job`: applies the provided fields, then — whenever the
resulting status is COMPLETE or FAILED — backfills `completed_at`
(`job.completed_at or datetime.now(UTC)`) and clears the active slot if
this job held it. -/
def update_job (s : JobStore) (jobId : Nat) (u : JobUpdate) (now : Nat) :
    Option Job × JobStore :=
  match lookupJob s.jobs jobId with
  | none => (none, s)
  | some j =>
    let j1 := applyUpdate j u
    if j1.status = .complete ∨ j1.status = .failed then
      let j2 := { j1 with completedAt := j1.completedAt <|> some now }
      (some j2,
        { s with
          jobs := setJob s.jobs jobId j2,
          activeJobId := if s.activeJobId = some jobId then none else s.activeJobId })
    else
      (some j1, { s with jobs := setJob s.jobs jobId j1 })

/-- The timed-out form of a job produced by `_check_timeout`. -/
def timedOutJob (j : Job) (now : Nat) : Job :=
  { j with
    status := .failed,
    error := some "Job timed out after 30 minutes",
    completedAt := some now }

/-- The per-job body of `JobStore._check_timeout`: a started, non-terminal
job whose elapsed time exceeds `TIMEOUT_SECONDS` is forced to FAILED.
Returns the (possibly updated) job and whether it was timed out. -/
def timeoutJob (j : Job) (now : Nat) : Job × Bool :=
  match j.startedAt with
  | some t0 =>
    if j.status = .complete ∨ j.status = .failed then (j, false)
    else if now - t0 > TIMEOUT_SECONDS then (timedOutJob j now, true)
    else (j, false)
  | none => (j, false)

/-- `JobStore._check_timeout(job)` lifted to the store: mutates the job
under `jobId` and releases the active slot when the timed-out job held
it. -/
def check_timeout (s : JobStore) (jobId : Nat) (now : Nat) : JobStore :=
  match lookupJob s.jobs jobId with
  | none => s
  | some j =>
    let r := timeoutJob j now
    if r.2 then
      { s with
        jobs := setJob s.jobs jobId r.1,
        activeJobId := if s.activeJobId = some j.id then none else s.activeJobId }
    else s

/-- `JobStore.get_job(job_id)`: looks the job up and runs the timeout
check on it before returning it. -/
def get_job (s : JobStore) (jobId : Nat) (now : Nat) : Option Job × JobStore :=
  match lookupJob s.jobs jobId with
  | none => (none, s)
  | some _ =>
    let s' := check_timeout s jobId now
    (lookupJob s'.jobs jobId, s')

/-- `JobStore.get_all_jobs()`: runs the timeout check on every job, then
returns all jobs most recent first. -/
def get_all_jobs (s : JobStore) (now : Nat) : List Job × JobStore :=
  let s' := s.jobs.foldl (fun acc p => check_timeout acc p.1 now) s
  ((s'.jobs.map Prod.snd).reverse, s')

/-- `JobStore.get_active_job()`: returns the currently active job, if any,
after running the timeout check on it. -/
def get_active_job (s : JobStore) (now : Nat) : Option Job × JobStore :=
  match s.activeJobId with
  | some aid =>
    match lookupJob s.jobs aid with
    | some _ =>
      let s' := check_timeout s aid now
      (lookupJob s'.jobs aid, s')
    | none => (none, s)
  | none => (none, s)

/-- `JobStore.add_log`: appends a log entry and trims to `MAX_LOGS`. -/
def add_log (s : JobStore) (jobId : Nat) (step message : String)
    (progress : Option ℚ) (details : Option (List (String × String))) (now : Nat) :
    JobStore :=
  match lookupJob s.jobs jobId with
  | none => s
  | some j =>
    let logs := j.logs ++ [{ timestamp := now, step := step, message := message,
                             progress := progress, details := details }]
    let logs := if logs.length > MAX_LOGS then logs.drop (logs.length - MAX_LOGS) else logs
    { s with jobs := setJob s.jobs jobId { j with logs := logs } }

/-- `JobStore.delete_job`: refuses while the job is still running. -/
def delete_job (s : JobStore) (jobId : Nat) : Bool × JobStore :=
  match lookupJob s.jobs jobId with
  | none => (false, s)
  | some j =>
    if j.status = .complete ∨ j.status = .failed then
      (true, { s with jobs := removeJob s.jobs jobId })
    else (false, s)

/-- `JobStore.clear_completed`: removes all COMPLETE/FAILED jobs and
counts them. -/
def clear_completed (s : JobStore) : Nat × JobStore :=
  let toRemove := (s.jobs.filter fun p =>
    p.2.status == .complete || p.2.status == .failed).map Prod.fst
  (toRemove.length, { s with jobs := toRemove.foldl removeJob s.jobs })

/-- The freshly constructed store (`JobStore.__init__`). -/
def initStore : JobStore := {}

/-- A sequence of `create_job` calls (url, audio format, wall-clock time)
applied to the store in order. -/
def runCreates : JobStore → List (String × String × Nat) → JobStore
  | s, [] => s
  | s, r :: t => runCreates (create_job s r.1 r.2.1 r.2.2).2 t

/-- Number of jobs in the store whose status is non-terminal. -/
def countActive (s : JobStore) : Nat :=
  (s.jobs.filter fun p => !(p.2.status == .complete || p.2.status == .failed)).length

/-! ### Event bus (`src/packages/api/src/yubal_api/services/job_event_bus.py`)

A subscriber queue is a FIFO list of already-serialized events (oldest
first); `json.dumps` is abstracted by taking the serialized payload as a
`String`. -/

/-- `JobEventBus.SUBSCRIBER_QUEUE_SIZE`. -/
def SUBSCRIBER_QUEUE_SIZE : Nat := 100

/-- `JobEventBus._safe_put`: `put_nowait` when there is room; on
`QueueFull`, drop the oldest item (`get_nowait`) and put the new one.  The
`QueueEmpty` branch keeps the queue unchanged (it is unreachable while the
capacity is positive). -/
def safe_put (queue : List String) (data : String) : List String :=
  if queue.length < SUBSCRIBER_QUEUE_SIZE then queue ++ [data]
  else
    match queue with
    | [] => []
    | _ :: rest => rest ++ [data]

/-- `JobEventBus.emit`: serialize once and push the payload to every
current subscriber's queue via `_safe_put`. -/
def emitEvent (subscribers : List (List String)) (data : String) : List (List String) :=
  subscribers.map fun queue => safe_put queue data

/-! ### Discography (`src/packages/api/src/yubal_api/services/discography.py`)

`SyncService.run` and the network-facing collection step are external
collaborators here: a release is represented by its title together with
the outcome its sync call would have (success with optional content info
and stats, failure with an optional error message, or a raised
exception). -/

/-- Modelled from the spec: the resolved content descriptor `ContentInfo`
of the missing `yubal_api/domain/job.py`, restricted to the fields the
discography aggregation and the metadata prefetch inspect. -/
structure ContentInfo where
  title : String := ""
  artist : String := ""
  trackCount : Option Nat := none
  albumCount : Option Nat := none
  audioBitrate : Option Nat := none
deriving DecidableEq, Repr

/-- Download statistics (`PhaseStats` of the yubal library, consumed as an
external collaborator): success/failed counters plus per-reason skip
counts. -/
structure PhaseStats where
  success : Nat := 0
  failed : Nat := 0
  skippedByReason : List (String × Nat) := []
deriving DecidableEq, Repr

/-- Outcome of a discography download
(`DiscographyResult` in `discography.py`). -/
structure DiscographyResult where
  success : Bool
  completedReleases : Nat
  totalReleases : Nat
  contentInfo : Option ContentInfo := none
  downloadStats : Option PhaseStats := none
  errors : List String := []
deriving DecidableEq, Repr

/-- One step of the skip-reason merge inside `_AggregatedStats.add`. -/
def bumpReason : List (String × Nat) → String → Nat → List (String × Nat)
  | [], r, c => [(r, c)]
  | (k, v) :: t, r, c => if k = r then (k, v + c) :: t else (k, v) :: bumpReason t r c

/-- `_AggregatedStats.add`. -/
def aggAdd (agg : PhaseStats) (stats : Option PhaseStats) : PhaseStats :=
  match stats with
  | none => agg
  | some st =>
    { success := agg.success + st.success,
      failed := agg.failed + st.failed,
      skippedByReason :=
        st.skippedByReason.foldl (fun m rc => bumpReason m rc.1 rc.2) agg.skippedByReason }

/-- `DiscographyService._update_content_info`: accumulate the release's
track count (`(x or 0)` on both sides) and adopt the first non-null audio
bitrate. -/
def update_content_info (aggregate : ContentInfo) (releaseInfo : Option ContentInfo) :
    ContentInfo :=
  match releaseInfo with
  | none => aggregate
  | some ri =>
    let a1 := { aggregate with
      trackCount := some (aggregate.trackCount.getD 0 + ri.trackCount.getD 0) }
    if a1.audioBitrate = none ∧ ri.audioBitrate ≠ none then
      { a1 with audioBitrate := ri.audioBitrate }
    else a1

/-- What one release's `sync_service.run` call does, abstracting the
downloader collaborator: return success (with the result's content info
and stats), return failure (with the result's `error`), or raise. -/
inductive ReleaseOutcome where
  | ok (contentInfo : Option ContentInfo) (stats : Option PhaseStats)
  | failure (error : Option String)
  | raised (exc : String)
deriving DecidableEq, Repr

/-- Python's `result.error or default` (`None` and the empty string are
both falsy). -/
def errorOrDefault (error : Option String) (dflt : String) : String :=
  match error with
  | some e => if e = "" then dflt else e
  | none => dflt

/-- Cooperative cancellation: `cancelAt = some k` means the `CancelToken`
is observed cancelled from the k-th `is_cancelled` check onwards (the
loop's check in iteration `i` is check number `i`; the final check after
the loop is check number `total`). -/
def isCancelledAt (cancelAt : Option Nat) (c : Nat) : Bool :=
  match cancelAt with
  | none => false
  | some k => decide (k ≤ c)

/-- The `for index, release in enumerate(plan.releases)` loop of
`DiscographyService.run`: break on cancellation; a raised exception is
appended to `errors` and the release skipped; a failed result appends
`result.error or "Failed to download <title>"`; a successful result bumps
`completed` and folds stats and content info into the accumulators. -/
def runReleases (cancelAt : Option Nat) :
    List (String × ReleaseOutcome) → Nat → Nat → List String → PhaseStats → ContentInfo →
    Nat × List String × PhaseStats × ContentInfo
  | [], _, completed, errors, agg, ci => (completed, errors, agg, ci)
  | (title, outcome) :: rest, index, completed, errors, agg, ci =>
    if isCancelledAt cancelAt index then (completed, errors, agg, ci)
    else
      match outcome with
      | .raised exc =>
        runReleases cancelAt rest (index + 1) completed (errors ++ [exc]) agg ci
      | .failure err =>
        runReleases cancelAt rest (index + 1) completed
          (errors ++ [errorOrDefault err ("Failed to download " ++ title)]) agg ci
      | .ok rci rstats =>
        runReleases cancelAt rest (index + 1) (completed + 1) errors
          (aggAdd agg rstats) (update_content_info ci rci)

/-- `DiscographyService.run` from the point where the plan has been
collected: an empty plan short-circuits to the "No albums or singles"
failure; otherwise the release loop runs and the result is assembled with
`success = completed > 0 and not cancel_token.is_cancelled`. -/
def discographyRun (contentInfo0 : ContentInfo)
    (releases : List (String × ReleaseOutcome)) (cancelAt : Option Nat) :
    DiscographyResult :=
  match releases with
  | [] =>
    { success := false, completedReleases := 0, totalReleases := 0,
      errors := ["No albums or singles found for this artist"] }
  | _ =>
    let total := releases.length
    let r := runReleases cancelAt releases 0 0 [] {} contentInfo0
    { success := decide (r.1 > 0) && !(isCancelledAt cancelAt total),
      completedReleases := r.1,
      totalReleases := total,
      contentInfo := if r.1 > 0 then some r.2.2.2 else none,
      downloadStats := some r.2.2.1,
      errors := r.2.1 }

/-- `_scale_progress(index, total, percent)` from `discography.py`:
pass `percent` through when `total <= 0` or `percent is None`; otherwise
rescale the release's own percentage into its `1/total` slice and clamp
to `[0, 100]`. -/
def scale_progress (index total : ℤ) (percent : Option ℚ) : Option ℚ :=
  if total ≤ 0 then percent
  else
    match percent with
    | none => none
    | some p =>
      let per_release : ℚ := p / (total : ℚ)
      let base : ℚ := ((index : ℚ) / (total : ℚ)) * 100
      let value := base + per_release
      some (min (max value 0) 100)

/-! ### Metadata prefetch (`_run_metadata_prefetch` in
`src/packages/api/src/yubal_api/services/job_executor.py`) -/

/-- The api layer's seven-state job status (`JobStatus` in
`src/yubal/core/enums.py`). -/
inductive ApiJobStatus where
  | pending
  | fetchingInfo
  | downloading
  | importing
  | completed
  | failed
  | cancelled
deriving DecidableEq, Repr

/-- `JobStatus.is_finished` from `src/yubal/core/enums.py`:
`self in (COMPLETED, FAILED, CANCELLED)`. -/
def ApiJobStatus.is_finished (s : ApiJobStatus) : Bool :=
  s == .completed || s == .failed || s == .cancelled

/-- Modelled from the spec: the `Job` record of the missing
`yubal_api/domain/job.py`, restricted to the fields the metadata prefetch
reads (id, state-machine status, resolved content descriptor). -/
structure ApiJob where
  id : Nat
  status : ApiJobStatus
  contentInfo : Option ContentInfo := none
deriving DecidableEq, Repr

/-- The decision core of `JobExecutor._run_metadata_prefetch`:
`resolved` is what the metadata resolver returned (`none` when it
produced nothing or raised), `current` is `self._job_store.get(job.id)`
at drop-check time.  The result is the `transition` call performed on the
store — its status argument and content-info payload — or `none` when the
prefetch result is silently dropped with no store mutation. -/
def run_metadata_prefetch (resolved : Option ContentInfo) (current : Option ApiJob) :
    Option (ApiJobStatus × ContentInfo) :=
  match resolved with
  | none => none
  | some ci =>
    match current with
    | none => none
    | some cur =>
      if cur.status.is_finished || cur.contentInfo.isSome then none
      else some (cur.status, ci)

/-! ### Derived notions and concrete instances used by the theorems -/

/-- The store invariant maintained by `create_job`: keys agree with job
ids, keys are fresh with respect to the id counter, keys are unique, and
every non-terminal job is the one registered in the active slot. -/
def StoreInv (s : JobStore) : Prop :=
  (∀ p ∈ s.jobs, p.1 = p.2.id) ∧
  (∀ p ∈ s.jobs, p.1 < s.nextId) ∧
  (s.jobs.map Prod.fst).Nodup ∧
  (∀ p ∈ s.jobs, ¬(p.2.status = .complete ∨ p.2.status = .failed) →
    s.activeJobId = some p.1)

/-- Number of releases whose sync call succeeds. -/
def countOk : List (String × ReleaseOutcome) → Nat
  | [] => 0
  | (_, .ok _ _) :: t => countOk t + 1
  | (_, .failure _) :: t => countOk t
  | (_, .raised _) :: t => countOk t

/-- The error strings the discography loop records, in release order: one
per raised exception and one per failed result. -/
def errorStrings : List (String × ReleaseOutcome) → List String
  | [] => []
  | (_, .ok _ _) :: t => errorStrings t
  | (title, .failure err) :: t =>
    errorOrDefault err ("Failed to download " ++ title) :: errorStrings t
  | (_, .raised exc) :: t => exc :: errorStrings t

/-- Store holding one freshly created (hence PENDING, active) job. -/
def oneJobStore : JobStore := (create_job initStore "urlA" "mp3" 0).2

/-- Store whose only job has been driven to COMPLETE. -/
def completedJobStore : JobStore :=
  (update_job (create_job initStore "u" "mp3" 0).2 0 { status := some .complete } 1).2

/-- The `completed_at` backfill applied by `update_job` when the job ends
up terminal (`job.completed_at = job.completed_at or datetime.now(UTC)`). -/
def finishJob (j : Job) (now : Nat) : Job :=
  { j with completedAt := j.completedAt <|> some now }

/-- The single job of `completedJobStore` after completion. -/
def completedJob : Job :=
  { id := 0, url := "u", status := .complete, createdAt := 0, completedAt := some 1 }

/-- The single job of `oneJobStore` after an `update_job` to COMPLETE at
time 5. -/
def completedAtFive : Job :=
  { id := 0, url := "urlA", status := .complete, createdAt := 0, completedAt := some 5 }

/-- Store filled to `MAX_JOBS` capacity with terminal jobs: fifty
create/complete rounds. -/
def fullStore : JobStore :=
  (List.range 50).foldl (fun s i =>
    let r := create_job s "u" "mp3" i
    match r.1 with
    | some j => (update_job r.2 j.id { status := some .complete } i).2
    | none => r.2) initStore

/-- `fullStore` after its oldest job has been re-opened to PENDING through
`update_job`. -/
def fullStoreReopened : JobStore :=
  (update_job fullStore 0 { status := some .pending } 100).2

/-- A running (started, DOWNLOADING) job used to exercise the timeout
path. -/
def startedJob : Job :=
  { id := 0, url := "u", status := .downloading, createdAt := 0, startedAt := some 0 }

/-- Store holding `startedJob` in the active slot. -/
def startedStore : JobStore :=
  { jobs := [(0, startedJob)], activeJobId := some 0, nextId := 1 }

/-- A PENDING job as created by `create_job initStore "a" "mp3" 0`. -/
def pendingJob : Job := { id := 0, url := "a", createdAt := 0 }

/-- The PENDING job created by `create_job initStore "urlA" "mp3" 0`. -/
def pendingJobA : Job := { id := 0, url := "urlA", createdAt := 0 }

/-- Store holding `pendingJob` in the active slot. -/
def pendingStore : JobStore :=
  { jobs := [(0, pendingJob)], activeJobId := some 0, nextId := 1 }

/-- An api-layer job that has started (DOWNLOADING) but is not finished
and has no content descriptor yet. -/
def startedApiJob : ApiJob := { id := 0, status := .downloading, contentInfo := none }

/-- Release list for the spec's scenario: release 2 of 3 raises. -/
def scenarioReleases : List (String × ReleaseOutcome) :=
  [("r1", .ok none none), ("r2", .raised "boom"), ("r3", .ok none none)]

/-! ## Theorems -/

/-- C7: for a discography run with `total = N > 0` releases, a release at
0-based index `i` (`0 ≤ i < N`) reporting its own progress `p` with
`0 ≤ p ≤ 100` is relayed as overall progress `(i / N) * 100 + p / N`
(the clamp to `[0, 100]` is exact there); when `N ≤ 0` or the per-release
progress is absent, the value is passed through unchanged. -/
theorem scale_progress_spec :
    (∀ (i N : ℤ) (p : ℚ), 0 ≤ i → i < N → 0 ≤ p → p ≤ 100 →
      scale_progress i N (some p) = some (((i : ℚ) / (N : ℚ)) * 100 + p / (N : ℚ))) ∧
    (∀ (i N : ℤ) (p : Option ℚ), N ≤ 0 → scale_progress i N p = p) ∧
    (∀ (i N : ℤ), scale_progress i N none = none) := by
  refine ⟨?_, ?_, ?_⟩
  · intro i N p hi hiN hp hp100
    have hN : ¬ (N ≤ 0) := by omega
    have hNQ : (0 : ℚ) < (N : ℚ) := by exact_mod_cast (by omega : (0:ℤ) < N)
    have hiQ : (0 : ℚ) ≤ (i : ℚ) := by exact_mod_cast hi
    have hiN' : (i : ℚ) + 1 ≤ (N : ℚ) := by exact_mod_cast (by omega : i + 1 ≤ N)
    have h0 : 0 ≤ ((i : ℚ) / (N : ℚ)) * 100 + p / (N : ℚ) := by positivity
    have h100 : ((i : ℚ) / (N : ℚ)) * 100 + p / (N : ℚ) ≤ 100 := by
      rw [div_mul_eq_mul_div, div_add_div_same, div_le_iff₀ hNQ]
      nlinarith
    unfold scale_progress
    rw [if_neg hN]
    simp only [Option.some.injEq]
    rw [max_eq_left h0, min_eq_left h100]
  · intro i N p h
    unfold scale_progress
    rw [if_pos h]
  · intro i N
    unfold scale_progress
    split <;> rfl

/-- Witness for C7 at `i = 1`, `N = 3`, `p = 50`. -/
theorem scale_progress_spec_witness :
    scale_progress 1 3 (some 50) =
      some ((((1 : ℤ) : ℚ) / ((3 : ℤ) : ℚ)) * 100 + 50 / ((3 : ℤ) : ℚ)) :=
  scale_progress_spec.1 1 3 50 (by norm_num) (by norm_num) (by norm_num) (by norm_num)

/-- C6: an `emit` pushes the event to every currently subscribed queue;
a queue with room simply appends it; a full queue (at capacity 100) drops
exactly its oldest entry to make room; and no queue exceeds the
capacity. -/
theorem emit_drop_oldest (subs : List (List String)) (data : String)
    (hcap : ∀ q ∈ subs, q.length ≤ SUBSCRIBER_QUEUE_SIZE) :
    (emitEvent subs data).length = subs.length ∧
    ∀ q ∈ subs,
      safe_put q data ∈ emitEvent subs data ∧
      (safe_put q data).getLast? = some data ∧
      (safe_put q data).length ≤ SUBSCRIBER_QUEUE_SIZE ∧
      (q.length < SUBSCRIBER_QUEUE_SIZE → safe_put q data = q ++ [data]) ∧
      (q.length = SUBSCRIBER_QUEUE_SIZE → safe_put q data = q.drop 1 ++ [data]) := by
  refine ⟨List.length_map _ _, ?_⟩
  intro q hq
  have hcapq := hcap q hq
  by_cases hlt : q.length < SUBSCRIBER_QUEUE_SIZE
  · have hval : safe_put q data = q ++ [data] := by simp [safe_put, hlt]
    refine ⟨List.mem_map_of_mem _ hq, ?_, ?_, fun _ => hval, fun heq => ?_⟩
    · rw [hval]; exact List.getLast?_concat q
    · rw [hval, List.length_append]; simpa using hlt
    · omega
  · have heq : q.length = SUBSCRIBER_QUEUE_SIZE := by omega
    cases q with
    | nil => simp [SUBSCRIBER_QUEUE_SIZE] at heq
    | cons a rest =>
      have hval : safe_put (a :: rest) data = rest ++ [data] := by
        rw [safe_put, if_neg hlt]
      refine ⟨List.mem_map_of_mem _ hq, ?_, ?_, fun hcontra => absurd hcontra hlt, fun _ => ?_⟩
      · rw [hval]; exact List.getLast?_concat rest
      · rw [hval, List.length_append]
        simp only [List.length_cons] at heq
        simp only [List.length_singleton]
        omega
      · rw [hval]; rfl

/-- Witness for C6: a one-element queue appends; a full queue of 100
events drops exactly the oldest one. -/
theorem emit_drop_oldest_witness :
    (emitEvent [["a"], List.replicate 100 "e"] "x").length = 2 ∧
    safe_put ["a"] "x" = ["a"] ++ ["x"] ∧
    safe_put (List.replicate 100 "e") "x" = (List.replicate 100 "e").drop 1 ++ ["x"] := by
  have h := emit_drop_oldest [["a"], List.replicate 100 "e"] "x" (by decide)
  exact ⟨h.1,
    (h.2 ["a"] (by simp)).2.2.2.1 (by decide),
    (h.2 (List.replicate 100 "e") (by simp)).2.2.2.2 (by decide)⟩

/-- C9 counterexample: a job that has started (status DOWNLOADING — past
PENDING, not finished) with no content descriptor attached does NOT have
the prefetch result dropped: `_run_metadata_prefetch` performs a store
transition for it, contradicting the claim that the result is dropped
"whenever the Job has since started or finished". -/
theorem metadata_prefetch_counterexample :
    startedApiJob.status ≠ .pending ∧
    startedApiJob.status.is_finished = false ∧
    run_metadata_prefetch (some {}) (some startedApiJob) =
      some (.downloading, {}) := by decide

/-- C9 amended: the prefetch never changes the state-machine status (its
transition reuses the job's current status), and it silently drops its
resolved content descriptor exactly when the resolver produced nothing,
the job no longer exists, the job has finished (COMPLETED, FAILED or
CANCELLED), or the job already has a content descriptor attached; a job
that has merely started but not finished and lacks a descriptor still
receives the backfill. -/
theorem metadata_prefetch_amended :
    (∀ resolved current st ci,
      run_metadata_prefetch resolved current = some (st, ci) →
      ∃ cur, current = some cur ∧ st = cur.status ∧ resolved = some ci ∧
        cur.contentInfo = none ∧ cur.status.is_finished = false) ∧
    (∀ resolved current,
      run_metadata_prefetch resolved current = none ↔
      resolved = none ∨ current = none ∨
      ∃ cur, current = some cur ∧
        (cur.status.is_finished || cur.contentInfo.isSome) = true) := by
  constructor
  · intro resolved current st ci h
    cases resolved with
    | none => simp [run_metadata_prefetch] at h
    | some ci0 =>
      cases current with
      | none => simp [run_metadata_prefetch] at h
      | some cur =>
        by_cases hdrop : (cur.status.is_finished || cur.contentInfo.isSome) = true
        · simp [run_metadata_prefetch, hdrop] at h
        · simp only [run_metadata_prefetch] at h
          rw [if_neg hdrop] at h
          obtain ⟨h1, h2⟩ := Prod.mk.inj (Option.some.inj h)
          simp only [Bool.or_eq_true, not_or, Bool.not_eq_true] at hdrop
          refine ⟨cur, rfl, h1.symm, by rw [h2], ?_, hdrop.1⟩
          cases hcur : cur.contentInfo with
          | none => rfl
          | some v =>
            exfalso
            have := hdrop.2
            rw [hcur] at this
            simp at this
  · intro resolved current
    cases resolved with
    | none => simp [run_metadata_prefetch]
    | some ci0 =>
      cases current with
      | none => simp [run_metadata_prefetch]
      | some cur =>
        by_cases hdrop : (cur.status.is_finished || cur.contentInfo.isSome) = true
        · have hl : run_metadata_prefetch (some ci0) (some cur) = none := by
            simp [run_metadata_prefetch, hdrop]
          exact iff_of_true hl (Or.inr (Or.inr ⟨cur, rfl, hdrop⟩))
        · have hl : run_metadata_prefetch (some ci0) (some cur) = some (cur.status, ci0) := by
            simp only [run_metadata_prefetch]
            rw [if_neg hdrop]
          apply iff_of_false
          · simp [hl]
          · rintro (h | h | ⟨cur', hc, hcond⟩)
            · exact Option.noConfusion h
            · exact Option.noConfusion h
            · rw [← Option.some.inj hc] at hcond
              exact hdrop hcond

/-- Witness for C9 amended: a vanished job's prefetch result is dropped. -/
theorem metadata_prefetch_amended_witness :
    run_metadata_prefetch (some {}) none = none :=
  (metadata_prefetch_amended.2 (some {}) none).mpr (Or.inr (Or.inl rfl))

/-- While the registered active job exists and is non-terminal,
`create_job` refuses and leaves the store untouched. -/
theorem create_job_blocked (s : JobStore) (url fmt : String) (now aid : Nat)
    (active : Job) (h1 : s.activeJobId = some aid)
    (h2 : lookupJob s.jobs aid = some active)
    (h3 : active.status ≠ .complete) (h4 : active.status ≠ .failed) :
    create_job s url fmt now = (none, s) := by
  have hact : hasActiveJob s = true := by
    simp [hasActiveJob, h1, h2, h3, h4]
  rw [create_job, if_pos hact]

/-- When the admission check passes, `create_job` prunes, creates a fresh
PENDING job and promotes it to the active slot. -/
theorem create_job_unblocked (s : JobStore) (url fmt : String) (now : Nat)
    (h : hasActiveJob s = false) :
    create_job s url fmt now =
      (some { id := s.nextId, url := url, audioFormat := fmt, createdAt := now },
       { jobs := pruneJobs s.jobs ++
           [(s.nextId, { id := s.nextId, url := url, audioFormat := fmt, createdAt := now })],
         activeJobId := some s.nextId,
         nextId := s.nextId + 1 }) := by
  rw [create_job, if_neg (by simp [h])]

/-- C2 counterexample: with job A active, enqueueing job B does not
create a waiting PENDING job — `create_job` returns `none` and leaves the
store with a single tracked job, refuting "the new Job is still created
and waits in FIFO order". -/
theorem enqueue_fifo_counterexample :
    ((create_job initStore "urlA" "mp3" 0).1.map Job.status = some .pending) ∧
    create_job oneJobStore "urlB" "mp3" 1 = (none, oneJobStore) ∧
    oneJobStore.jobs.length = 1 := by decide

/-- C2 amended: enqueue creates a Job in PENDING and admits it
immediately (promoted to active and returned) when no Job is active;
while the active Job is non-terminal, enqueue creates nothing and
signals the conflict by returning `none` (the caller answers 409 "job
already running") — there is no FIFO wait queue; and the capacity
ceiling never causes enqueue to fail: at capacity the oldest tracked
jobs are pruned instead. -/
theorem enqueue_amended :
    (∀ (s : JobStore) (url fmt : String) (now aid : Nat) (active : Job),
      s.activeJobId = some aid → lookupJob s.jobs aid = some active →
      active.status ≠ .complete → active.status ≠ .failed →
      create_job s url fmt now = (none, s)) ∧
    (∀ (s : JobStore) (url fmt : String) (now : Nat), hasActiveJob s = false →
      ∃ job s', create_job s url fmt now = (some job, s') ∧
        job.status = .pending ∧ s'.activeJobId = some job.id ∧
        s'.jobs = pruneJobs s.jobs ++ [(job.id, job)]) := by
  constructor
  · exact create_job_blocked
  · intro s url fmt now h
    exact ⟨_, _, create_job_unblocked s url fmt now h, rfl, rfl, rfl⟩

/-- Witness for C2 amended: a blocked store refuses; the empty store
admits immediately. -/
theorem enqueue_amended_witness :
    create_job pendingStore "x" "mp3" 5 = (none, pendingStore) ∧
    ∃ job s', create_job initStore "a" "mp3" 0 = (some job, s') ∧
      job.status = .pending ∧ s'.activeJobId = some job.id ∧
      s'.jobs = pruneJobs initStore.jobs ++ [(job.id, job)] :=
  ⟨enqueue_amended.1 pendingStore "x" "mp3" 5 0 pendingJob rfl (by decide)
      (by decide) (by decide),
   enqueue_amended.2 initStore "a" "mp3" 0 (by decide)⟩

/-- C4 counterexample: a Job driven to the terminal status COMPLETE is
re-opened by a later `update_job` carrying `status = PENDING`; the call
is applied, not rejected. -/
theorem terminal_transition_counterexample :
    (lookupJob completedJobStore.jobs 0).map Job.status = some .complete ∧
    ((update_job completedJobStore 0 { status := some .pending } 2).1.map Job.status) =
      some .pending := by decide

/-- C4 amended: `update_job` never rejects an update: when the job
exists it unconditionally applies every provided field — including a
status change that re-opens a Job already in a terminal status; the only
terminal-state bookkeeping is that an update leaving the job terminal
backfills `completed_at` and releases the active slot. -/
theorem update_job_amended (s : JobStore) (jobId : Nat) (u : JobUpdate) (now : Nat)
    (j : Job) (hj : lookupJob s.jobs jobId = some j) :
    ∃ j', (update_job s jobId u now).1 = some j' ∧
      j'.status = u.status.getD j.status ∧
      ((j'.status = .complete ∨ j'.status = .failed) →
        j'.completedAt ≠ none ∧
        (update_job s jobId u now).2.activeJobId ≠ some jobId) := by
  simp only [update_job, hj]
  by_cases hterm : (applyUpdate j u).status = .complete ∨ (applyUpdate j u).status = .failed
  · rw [if_pos hterm]
    refine ⟨_, rfl, rfl, fun _ => ⟨?_, ?_⟩⟩
    · show ((applyUpdate j u).completedAt <|> some now) ≠ none
      cases hc : (applyUpdate j u).completedAt <;> simp [hc]
    · show (if s.activeJobId = some jobId then none else s.activeJobId) ≠ some jobId
      split_ifs with hA
      · simp
      · exact hA
  · rw [if_neg hterm]
    exact ⟨_, rfl, rfl, fun hterm' => absurd hterm' hterm⟩

/-- Witness for C4 amended: the re-opening update on a COMPLETE job goes
through with the requested PENDING status. -/
theorem update_job_amended_witness :
    ((update_job completedJobStore 0 { status := some .pending } 2).1.map Job.status) =
      some .pending := by
  obtain ⟨j', h1, h2, -⟩ :=
    update_job_amended completedJobStore 0 { status := some .pending } 2
      completedJob (by decide)
  rw [h1, Option.map_some']
  simp [h2]

/-- `update_job` on an unknown id is a no-op signalling "not found". -/
theorem update_job_miss (s : JobStore) (jobId : Nat) (u : JobUpdate) (now : Nat)
    (hl : lookupJob s.jobs jobId = none) :
    update_job s jobId u now = (none, s) := by
  simp only [update_job, hl]

/-- Explicit form of `update_job` when the post-update status is
terminal. -/
theorem update_job_terminal_eq (s : JobStore) (jobId : Nat) (u : JobUpdate) (now : Nat)
    (j : Job) (hl : lookupJob s.jobs jobId = some j)
    (hterm : (applyUpdate j u).status = .complete ∨ (applyUpdate j u).status = .failed) :
    update_job s jobId u now =
      (some (finishJob (applyUpdate j u) now),
       { s with
         jobs := setJob s.jobs jobId (finishJob (applyUpdate j u) now),
         activeJobId := if s.activeJobId = some jobId then none else s.activeJobId }) := by
  simp only [update_job, hl]
  rw [if_pos hterm]
  rfl

/-- Explicit form of `update_job` when the post-update status is
non-terminal. -/
theorem update_job_nonterminal_eq (s : JobStore) (jobId : Nat) (u : JobUpdate) (now : Nat)
    (j : Job) (hl : lookupJob s.jobs jobId = some j)
    (hnterm : ¬((applyUpdate j u).status = .complete ∨ (applyUpdate j u).status = .failed)) :
    update_job s jobId u now =
      (some (applyUpdate j u),
       { s with jobs := setJob s.jobs jobId (applyUpdate j u) }) := by
  simp only [update_job, hl]
  rw [if_neg hnterm]

/-- C10: an `update_job` call that leaves the job in a terminal status
(COMPLETE or FAILED) always leaves `completed_at` non-null (defaulting
it to the current time when neither the caller nor the job supplied
one), releases the active slot from that job, and — when that job held
the slot — lets the very next enqueue succeed. -/
theorem terminal_update_completion (s : JobStore) (jobId : Nat) (u : JobUpdate) (now : Nat)
    (j' : Job) (h : (update_job s jobId u now).1 = some j')
    (hterm : j'.status = .complete ∨ j'.status = .failed) :
    j'.completedAt ≠ none ∧
    (u.completedAt = none → (lookupJob s.jobs jobId).bind Job.completedAt = none →
      j'.completedAt = some now) ∧
    (update_job s jobId u now).2.activeJobId ≠ some jobId ∧
    (s.activeJobId = some jobId →
      ∀ (url fmt : String) (t : Nat),
        ((create_job (update_job s jobId u now).2 url fmt t).1).isSome = true) := by
  cases hl : lookupJob s.jobs jobId with
  | none =>
    rw [update_job_miss s jobId u now hl] at h
    exact Option.noConfusion h
  | some j =>
    by_cases hterm2 : (applyUpdate j u).status = .complete ∨ (applyUpdate j u).status = .failed
    · have heq := update_job_terminal_eq s jobId u now j hl hterm2
      rw [heq] at h
      have hj' : j' = finishJob (applyUpdate j u) now := (Option.some.inj h).symm
      rw [heq]
      refine ⟨?_, ?_, ?_, ?_⟩
      · rw [hj']
        unfold finishJob
        cases hc : (applyUpdate j u).completedAt <;> simp [hc]
      · intro hu hbind
        have hjc : j.completedAt = none := by simpa using hbind
        rw [hj']
        unfold finishJob
        have hap : (applyUpdate j u).completedAt = (u.completedAt <|> j.completedAt) := rfl
        simp [hap, hu, hjc]
      · show (if s.activeJobId = some jobId then none else s.activeJobId) ≠ some jobId
        split_ifs with hA
        · simp
        · exact hA
      · intro hA url fmt t
        rw [create_job_unblocked _ url fmt t (by simp [hasActiveJob, hA])]
        rfl
    · have heq := update_job_nonterminal_eq s jobId u now j hl hterm2
      rw [heq] at h
      rw [← Option.some.inj h] at hterm
      exact absurd hterm hterm2

/-- `pruneJobs` removes exactly the oldest entries, from the front of the
insertion order, until the store is strictly below `MAX_JOBS`. -/
theorem pruneJobs_eq_drop (l : List (Nat × Job)) :
    pruneJobs l = l.drop (l.length + 1 - MAX_JOBS) := by
  induction l with
  | nil => simp [pruneJobs]
  | cons x t ih =>
    rw [pruneJobs]
    by_cases h : (x :: t).length ≥ MAX_JOBS
    · rw [if_pos h, ih]
      simp only [List.length_cons] at h ⊢
      have hidx : t.length + 1 + 1 - MAX_JOBS = (t.length + 1 - MAX_JOBS) + 1 := by omega
      rw [hidx, List.drop_succ_cons]
    · rw [if_neg h]
      simp only [List.length_cons] at h ⊢
      have hidx : t.length + 1 + 1 - MAX_JOBS = 0 := by
        unfold MAX_JOBS at h ⊢
        omega
      rw [hidx, List.drop_zero]

set_option maxRecDepth 10000 in
/-- C3 counterexample: starting from the reachable store
`fullStoreReopened` — fifty jobs, all terminal except the oldest one,
which a later `update_job` re-opened to PENDING — a successful enqueue at
the capacity ceiling evicts that PENDING job, refuting "an active or
pending Job is never evicted by capacity pruning". -/
theorem prune_evicts_pending_counterexample :
    (lookupJob fullStoreReopened.jobs 0).map Job.status = some .pending ∧
    fullStoreReopened.jobs.length = MAX_JOBS ∧
    ((create_job fullStoreReopened "new" "mp3" 101).1).isSome = true ∧
    lookupJob (create_job fullStoreReopened "new" "mp3" 101).2.jobs 0 = none := by decide

/-- C3 amended: when enqueue runs with the store at the capacity ceiling,
the oldest tracked Jobs are evicted, strictly from the front of the
insertion order and regardless of their status; the Job holding the
active slot with a non-terminal status is never evicted — `create_job`
refuses to create at all while it exists — but a non-active non-terminal
Job (possible after `update_job` re-opens a terminal one) can be
evicted. -/
theorem capacity_prune_oldest :
    (∀ (s : JobStore) (url fmt : String) (now : Nat) (job : Job) (s' : JobStore),
      create_job s url fmt now = (some job, s') →
      s'.jobs = s.jobs.drop (s.jobs.length + 1 - MAX_JOBS) ++ [(job.id, job)]) ∧
    (∀ (s : JobStore) (url fmt : String) (now aid : Nat) (active : Job),
      s.activeJobId = some aid → lookupJob s.jobs aid = some active →
      active.status ≠ .complete → active.status ≠ .failed →
      create_job s url fmt now = (none, s)) := by
  constructor
  · intro s url fmt now job s' h
    by_cases hact : hasActiveJob s
    · rw [create_job, if_pos hact] at h
      exact absurd (congrArg Prod.fst h) (by simp)
    · rw [create_job_unblocked s url fmt now (Bool.eq_false_iff.mpr hact)] at h
      obtain ⟨h1, h2⟩ := Prod.mk.inj h
      rw [← h2, ← Option.some.inj h1, ← pruneJobs_eq_drop]
  · exact create_job_blocked

/-- Witness for C3 amended: the first enqueue on the empty store appends
its job after dropping nothing. -/
theorem capacity_prune_oldest_witness :
    oneJobStore.jobs =
      initStore.jobs.drop (initStore.jobs.length + 1 - MAX_JOBS) ++ [(0, pendingJobA)] :=
  capacity_prune_oldest.1 initStore "urlA" "mp3" 0 pendingJobA oneJobStore (by decide)

/-- A successful `lookupJob` certifies membership. -/
theorem lookupJob_mem {l : List (Nat × Job)} {k : Nat} {j : Job}
    (h : lookupJob l k = some j) : (k, j) ∈ l := by
  induction l with
  | nil => simp [lookupJob] at h
  | cons p t ih =>
    obtain ⟨k', j'⟩ := p
    rw [lookupJob] at h
    split_ifs at h with he
    · subst he
      rw [← Option.some.inj h]
      exact List.mem_cons_self _ _
    · exact List.mem_cons_of_mem _ (ih h)

/-- Membership certifies that `lookupJob` finds something for the key. -/
theorem lookupJob_isSome_of_mem {l : List (Nat × Job)} {k : Nat} {j : Job}
    (h : (k, j) ∈ l) : ∃ j', lookupJob l k = some j' := by
  induction l with
  | nil => simp at h
  | cons p t ih =>
    obtain ⟨k', j'⟩ := p
    rw [lookupJob]
    by_cases he : k' = k
    · rw [if_pos he]
      exact ⟨j', rfl⟩
    · rw [if_neg he]
      rcases List.mem_cons.mp h with hh | ht
      · exact absurd (Prod.mk.inj hh).1.symm he
      · exact ih ht

/-- With unique keys, `lookupJob` finds exactly the member stored under a
key. -/
theorem lookupJob_eq_of_mem_nodup {l : List (Nat × Job)}
    (hnd : (l.map Prod.fst).Nodup) {k : Nat} {j : Job} (h : (k, j) ∈ l) :
    lookupJob l k = some j := by
  induction l with
  | nil => simp at h
  | cons p t ih =>
    obtain ⟨k', j'⟩ := p
    simp only [List.map_cons, List.nodup_cons] at hnd
    rw [lookupJob]
    rcases List.mem_cons.mp h with hh | ht
    · obtain ⟨hk, hj⟩ := Prod.mk.inj hh
      rw [if_pos hk.symm, hj]
    · by_cases he : k' = k
      · exfalso
        apply hnd.1
        subst he
        exact List.mem_map_of_mem Prod.fst ht
      · rw [if_neg he]
        exact ih hnd.2 ht

/-- Pruning keeps a sublist of the original entries. -/
theorem pruneJobs_sublist (l : List (Nat × Job)) : List.Sublist (pruneJobs l) l := by
  rw [pruneJobs_eq_drop]
  exact List.drop_sublist _ _

/-- The fresh store satisfies the invariant. -/
theorem storeInv_init : StoreInv initStore := by
  refine ⟨?_, ?_, ?_, ?_⟩ <;> simp [initStore, StoreInv]

/-- When the admission check passes, every tracked job is terminal (under
the invariant): a non-terminal job would be the registered active job and
would have made the check fail. -/
theorem hasActive_false_all_terminal (s : JobStore) (hinv : StoreInv s)
    (hact : hasActiveJob s = false) :
    ∀ p ∈ s.jobs, p.2.status = .complete ∨ p.2.status = .failed := by
  intro p hp
  by_contra hnt
  have hA := hinv.2.2.2 p hp hnt
  have hlook : lookupJob s.jobs p.1 = some p.2 :=
    lookupJob_eq_of_mem_nodup hinv.2.2.1 (show (p.1, p.2) ∈ s.jobs from hp)
  rcases not_or.mp hnt with ⟨h1, h2⟩
  simp only [hasActiveJob, hA, hlook] at hact
  simp [h1, h2] at hact

/-- `create_job` preserves the store invariant. -/
theorem create_job_preserves_inv (s : JobStore) (url fmt : String) (now : Nat)
    (hinv : StoreInv s) : StoreInv (create_job s url fmt now).2 := by
  by_cases hact : hasActiveJob s
  · rw [create_job, if_pos hact]
    exact hinv
  · have hfalse : hasActiveJob s = false := Bool.eq_false_iff.mpr hact
    have hterm := hasActive_false_all_terminal s hinv hfalse
    rw [create_job_unblocked s url fmt now hfalse]
    have hsub : List.Sublist (pruneJobs s.jobs) s.jobs := pruneJobs_sublist s.jobs
    refine ⟨?_, ?_, ?_, ?_⟩
    · intro p hp
      rcases List.mem_append.mp hp with h | h
      · exact hinv.1 p (hsub.mem h)
      · rw [List.mem_singleton] at h
        subst h
        rfl
    · intro p hp
      rcases List.mem_append.mp hp with h | h
      · exact Nat.lt_succ_of_lt (hinv.2.1 p (hsub.mem h))
      · rw [List.mem_singleton] at h
        subst h
        exact Nat.lt_succ_self _
    · rw [List.map_append]
      refine List.Nodup.append (hinv.2.2.1.sublist (hsub.map Prod.fst)) (by simp) ?_
      intro a ha hb
      simp only [List.map_cons, List.map_nil, List.mem_singleton] at hb
      obtain ⟨p, hp, hpa⟩ := List.mem_map.mp ha
      have := hinv.2.1 p (hsub.mem hp)
      omega
    · intro p hp hnt
      rcases List.mem_append.mp hp with h | h
      · exact absurd (hterm p (hsub.mem h)) hnt
      · rw [List.mem_singleton] at h
        subst h
        rfl

/-- A list of entries with pairwise distinct keys that all equal one
fixed key has at most one entry. -/
theorem length_le_one_of_const_fst (l : List (Nat × Job)) (a : Nat)
    (hnd : (l.map Prod.fst).Nodup) (hall : ∀ p ∈ l, p.1 = a) : l.length ≤ 1 := by
  match l with
  | [] => simp
  | [p] => simp
  | p :: q :: t =>
    exfalso
    simp only [List.map_cons, List.nodup_cons] at hnd
    apply hnd.1
    have hp := hall p (by simp)
    have hq := hall q (by simp)
    rw [hp, ← hq]
    simp

/-- Under the invariant, at most one tracked job is non-terminal. -/
theorem countActive_le_one (s : JobStore) (hinv : StoreInv s) : countActive s ≤ 1 := by
  unfold countActive
  cases hA : s.activeJobId with
  | none =>
    have hnil : s.jobs.filter
        (fun p => !(p.2.status == .complete || p.2.status == .failed)) = [] := by
      rw [List.filter_eq_nil_iff]
      intro p hp hcond
      have hnt : ¬(p.2.status = .complete ∨ p.2.status = .failed) := by
        simpa using hcond
      have := hinv.2.2.2 p hp hnt
      rw [hA] at this
      exact Option.noConfusion this
    rw [hnil]
    simp
  | some aid =>
    apply length_le_one_of_const_fst _ aid
    · exact hinv.2.2.1.sublist ((List.filter_sublist _).map Prod.fst)
    · intro p hp
      have hmem := List.mem_filter.mp hp
      have hnt : ¬(p.2.status = .complete ∨ p.2.status = .failed) := by
        simpa using hmem.2
      have := hinv.2.2.2 p hmem.1 hnt
      rw [hA] at this
      exact (Option.some.inj this).symm

/-- Any sequence of `create_job` calls preserves the store invariant. -/
theorem runCreates_inv (reqs : List (String × String × Nat)) :
    ∀ s : JobStore, StoreInv s → StoreInv (runCreates s reqs) := by
  induction reqs with
  | nil => intro s h; exact h
  | cons r t ih =>
    intro s h
    rw [runCreates]
    exact ih _ (create_job_preserves_inv s r.1 r.2.1 r.2.2 h)

/-- C1: for every sequence of enqueue (`create_job`) operations starting
from the fresh store, at most one tracked Job is in a non-terminal
status at any observed instant; and `create_job` refuses to create a new
Job while the registered active Job's status is not COMPLETE or
FAILED. -/
theorem create_job_single_active :
    (∀ reqs : List (String × String × Nat),
      countActive (runCreates initStore reqs) ≤ 1) ∧
    (∀ (s : JobStore) (url fmt : String) (now aid : Nat) (active : Job),
      s.activeJobId = some aid → lookupJob s.jobs aid = some active →
      active.status ≠ .complete → active.status ≠ .failed →
      create_job s url fmt now = (none, s)) :=
  ⟨fun reqs => countActive_le_one _ (runCreates_inv reqs initStore storeInv_init),
   create_job_blocked⟩

/-- Witness for C1: a two-enqueue trace keeps at most one non-terminal
job; a store with a running PENDING job refuses a third enqueue. -/
theorem create_job_single_active_witness :
    countActive (runCreates initStore [("a", "mp3", 0), ("b", "mp3", 1)]) ≤ 1 ∧
    create_job pendingStore "c" "mp3" 2 = (none, pendingStore) :=
  ⟨create_job_single_active.1 _,
   create_job_single_active.2 pendingStore "c" "mp3" 2 0 pendingJob rfl (by decide)
     (by decide) (by decide)⟩

/-- With no cancellation, the release loop completes every successful
release and records one error string per raised or failed release, in
order. -/
theorem runReleases_none_spec (l : List (String × ReleaseOutcome)) :
    ∀ (index completed : Nat) (errors : List String) (agg : PhaseStats) (ci : ContentInfo),
    (runReleases none l index completed errors agg ci).1 = completed + countOk l ∧
    (runReleases none l index completed errors agg ci).2.1 = errors ++ errorStrings l := by
  induction l with
  | nil =>
    intro index completed errors agg ci
    simp [runReleases, countOk, errorStrings]
  | cons p t ih =>
    intro index completed errors agg ci
    obtain ⟨title, outcome⟩ := p
    cases outcome with
    | ok rci rstats =>
      have hstep : runReleases none ((title, .ok rci rstats) :: t) index completed errors agg ci =
          runReleases none t (index + 1) (completed + 1) errors (aggAdd agg rstats)
            (update_content_info ci rci) := rfl
      rw [hstep]
      obtain ⟨ih1, ih2⟩ := ih (index + 1) (completed + 1) errors (aggAdd agg rstats)
        (update_content_info ci rci)
      refine ⟨?_, ?_⟩
      · rw [ih1, countOk]
        omega
      · rw [ih2, errorStrings]
    | failure err =>
      have hstep : runReleases none ((title, .failure err) :: t) index completed errors agg ci =
          runReleases none t (index + 1) completed
            (errors ++ [errorOrDefault err ("Failed to download " ++ title)]) agg ci := rfl
      rw [hstep]
      obtain ⟨ih1, ih2⟩ := ih (index + 1) completed
        (errors ++ [errorOrDefault err ("Failed to download " ++ title)]) agg ci
      refine ⟨?_, ?_⟩
      · rw [ih1, countOk]
      · rw [ih2, errorStrings, List.append_assoc]
        rfl
    | raised exc =>
      have hstep : runReleases none ((title, .raised exc) :: t) index completed errors agg ci =
          runReleases none t (index + 1) completed (errors ++ [exc]) agg ci := rfl
      rw [hstep]
      obtain ⟨ih1, ih2⟩ := ih (index + 1) completed (errors ++ [exc]) agg ci
      refine ⟨?_, ?_⟩
      · rw [ih1, countOk]
      · rw [ih2, errorStrings, List.append_assoc]
        rfl

/-- C8: in a discography run (no cancellation), a release whose sync
fails or raises is recorded as exactly one error string and skipped
while all remaining releases are still processed — completed counts every
successful release, the error list collects exactly the per-release
errors in order — and the final result's success is true iff at least one
release completed; with cancellation, success is "some release completed
and the token was never observed cancelled". -/
theorem discography_partial_failure (ci0 : ContentInfo)
    (releases : List (String × ReleaseOutcome)) (h : releases ≠ []) :
    (discographyRun ci0 releases none).completedReleases = countOk releases ∧
    (discographyRun ci0 releases none).errors = errorStrings releases ∧
    (discographyRun ci0 releases none).totalReleases = releases.length ∧
    ((discographyRun ci0 releases none).success = true ↔ 0 < countOk releases) ∧
    (∀ cancelAt, (discographyRun ci0 releases cancelAt).success =
      (decide (0 < (discographyRun ci0 releases cancelAt).completedReleases) &&
        !(isCancelledAt cancelAt releases.length))) := by
  cases releases with
  | nil => exact absurd rfl h
  | cons p t =>
    obtain ⟨hrun1, hrun2⟩ := runReleases_none_spec (p :: t) 0 0 [] {} ci0
    refine ⟨?_, ?_, rfl, ?_, fun cancelAt => rfl⟩
    · show (runReleases none (p :: t) 0 0 [] {} ci0).1 = countOk (p :: t)
      rw [hrun1]
      omega
    · show (runReleases none (p :: t) 0 0 [] {} ci0).2.1 = errorStrings (p :: t)
      rw [hrun2]
      rfl
    · show (decide ((runReleases none (p :: t) 0 0 [] {} ci0).1 > 0) &&
        !(isCancelledAt none (p :: t).length)) = true ↔ 0 < countOk (p :: t)
      rw [hrun1]
      simp [isCancelledAt]

/-- Witness for C8: the spec scenario — release 2 of 3 raises — reports 2
completed releases, 1 error, success = true. -/
theorem discography_partial_failure_witness :
    0 < countOk scenarioReleases ∧
    (discographyRun {} scenarioReleases none).completedReleases = 2 ∧
    (discographyRun {} scenarioReleases none).errors = ["boom"] ∧
    (discographyRun {} scenarioReleases none).success = true := by
  have h := discography_partial_failure {} scenarioReleases (by decide)
  refine ⟨by decide, ?_, ?_, ?_⟩
  · rw [h.1]
    rfl
  · rw [h.2.1]
    rfl
  · exact (h.2.2.2.1).mpr (by decide)

/-- Mutating the entry under a key makes `lookupJob` return the new
value. -/
theorem lookupJob_setJob_self {l : List (Nat × Job)} {k : Nat} {j v : Job}
    (h : lookupJob l k = some j) : lookupJob (setJob l k v) k = some v := by
  induction l with
  | nil => simp [lookupJob] at h
  | cons p t ih =>
    obtain ⟨k', j'⟩ := p
    rw [setJob]
    by_cases he : k' = k
    · rw [if_pos he, lookupJob, if_pos rfl]
    · rw [if_neg he, lookupJob, if_neg he]
      apply ih
      rw [lookupJob, if_neg he] at h
      exact h

/-- Mutating the entry under one key leaves lookups of other keys
unchanged. -/
theorem lookupJob_setJob_ne {l : List (Nat × Job)} {k k' : Nat} {v : Job}
    (hne : k' ≠ k) : lookupJob (setJob l k v) k' = lookupJob l k' := by
  induction l with
  | nil => rfl
  | cons p t ih =>
    obtain ⟨a, b⟩ := p
    rw [setJob]
    by_cases he : a = k
    · subst he
      rw [if_pos rfl, lookupJob, lookupJob,
        if_neg (fun hh => hne hh.symm), if_neg (fun hh => hne hh.symm)]
    · rw [if_neg he, lookupJob, lookupJob]
      by_cases ha : a = k'
      · rw [if_pos ha, if_pos ha]
      · rw [if_neg ha, if_neg ha]
        exact ih

/-- The timeout check fires on a started, non-terminal job whose elapsed
time exceeds the ceiling. -/
theorem timeoutJob_fires {j : Job} {now t0 : Nat} (hst : j.startedAt = some t0)
    (hnt : ¬(j.status = .complete ∨ j.status = .failed))
    (he : now - t0 > TIMEOUT_SECONDS) :
    timeoutJob j now = (timedOutJob j now, true) := by
  simp only [timeoutJob, hst]
  rw [if_neg hnt, if_pos he]

/-- The timeout check never touches a terminal job. -/
theorem timeoutJob_skips_terminal {j : Job} {now : Nat}
    (ht : j.status = .complete ∨ j.status = .failed) :
    timeoutJob j now = (j, false) := by
  cases hst : j.startedAt with
  | none => simp [timeoutJob, hst]
  | some t0 =>
    simp only [timeoutJob, hst]
    rw [if_pos ht]

/-- Explicit form of `check_timeout` when the timeout fires: the job is
forced to FAILED and the active slot is released if that job held it. -/
theorem check_timeout_applies (s : JobStore) (jid : Nat) (j : Job) (t0 now : Nat)
    (hj : lookupJob s.jobs jid = some j) (hid : j.id = jid)
    (hst : j.startedAt = some t0)
    (hnt : ¬(j.status = .complete ∨ j.status = .failed))
    (he : now - t0 > TIMEOUT_SECONDS) :
    check_timeout s jid now =
      { s with
        jobs := setJob s.jobs jid (timedOutJob j now),
        activeJobId := if s.activeJobId = some jid then none else s.activeJobId } := by
  simp [check_timeout, hj, timeoutJob_fires hst hnt he, hid]

/-- `check_timeout` leaves a terminal job's store untouched. -/
theorem check_timeout_skips_terminal (s : JobStore) (jid : Nat) (j : Job) (now : Nat)
    (hj : lookupJob s.jobs jid = some j)
    (ht : j.status = .complete ∨ j.status = .failed) :
    check_timeout s jid now = s := by
  simp [check_timeout, hj, timeoutJob_skips_terminal ht]

/-- `check_timeout` on an unknown key leaves the store unchanged. -/
theorem check_timeout_miss (s : JobStore) (jid now : Nat)
    (hj : lookupJob s.jobs jid = none) : check_timeout s jid now = s := by
  simp [check_timeout, hj]

/-- `check_timeout` on one key does not affect lookups of other keys. -/
theorem check_timeout_lookup_ne (s : JobStore) (k now jid : Nat) (hne : jid ≠ k) :
    lookupJob (check_timeout s k now).jobs jid = lookupJob s.jobs jid := by
  cases hl : lookupJob s.jobs k with
  | none => rw [check_timeout_miss s k now hl]
  | some j =>
    simp only [check_timeout, hl]
    split
    · exact lookupJob_setJob_ne hne
    · rfl

/-- `check_timeout` never installs a new active id: a slot not pointing
at `a` still does not point at `a` afterwards. -/
theorem check_timeout_active_ne (s : JobStore) (k now a : Nat)
    (h : s.activeJobId ≠ some a) : (check_timeout s k now).activeJobId ≠ some a := by
  cases hl : lookupJob s.jobs k with
  | none =>
    rw [check_timeout_miss s k now hl]
    exact h
  | some j =>
    simp only [check_timeout, hl]
    split
    · show (if s.activeJobId = some j.id then none else s.activeJobId) ≠ some a
      split_ifs with h2
      · simp
      · exact h
    · exact h

/-- The `get_all_jobs` sweep leaves a terminal entry untouched. -/
theorem foldl_check_preserves (now : Nat) (l : List (Nat × Job)) :
    ∀ (s : JobStore) (jid : Nat) (j : Job),
      lookupJob s.jobs jid = some j →
      (j.status = .complete ∨ j.status = .failed) →
      lookupJob ((l.foldl (fun acc p => check_timeout acc p.1 now) s)).jobs jid = some j := by
  induction l with
  | nil =>
    intro s jid j hj _
    exact hj
  | cons p t ih =>
    intro s jid j hj ht
    rw [List.foldl_cons]
    apply ih _ _ _ _ ht
    by_cases he : jid = p.1
    · subst he
      rw [check_timeout_skips_terminal _ _ j _ hj ht]
      exact hj
    · rw [check_timeout_lookup_ne _ _ _ _ he]
      exact hj

/-- The `get_all_jobs` sweep never installs a new active id. -/
theorem foldl_check_active_ne (now : Nat) (l : List (Nat × Job)) :
    ∀ (s : JobStore) (a : Nat), s.activeJobId ≠ some a →
      ((l.foldl (fun acc p => check_timeout acc p.1 now) s)).activeJobId ≠ some a := by
  induction l with
  | nil =>
    intro s a h
    exact h
  | cons p t ih =>
    intro s a h
    rw [List.foldl_cons]
    exact ih _ _ (check_timeout_active_ne _ _ _ _ h)

/-- Running the `get_all_jobs` sweep over a list containing the stale
job's key fails that job and leaves the active slot off it. -/
theorem foldl_check_applies (now jid : Nat) (j : Job) (t0 : Nat)
    (hid : j.id = jid) (hst : j.startedAt = some t0)
    (hnt : ¬(j.status = .complete ∨ j.status = .failed))
    (he : now - t0 > TIMEOUT_SECONDS) (l : List (Nat × Job)) :
    ∀ s : JobStore, lookupJob s.jobs jid = some j → (∃ p ∈ l, p.1 = jid) →
      lookupJob ((l.foldl (fun acc p => check_timeout acc p.1 now) s)).jobs jid =
        some (timedOutJob j now) ∧
      ((l.foldl (fun acc p => check_timeout acc p.1 now) s)).activeJobId ≠ some jid := by
  induction l with
  | nil =>
    intro s _ hex
    obtain ⟨p, hp, _⟩ := hex
    simp at hp
  | cons p t ih =>
    intro s hj hex
    rw [List.foldl_cons]
    by_cases hp1 : p.1 = jid
    · rw [hp1, check_timeout_applies s jid j t0 now hj hid hst hnt he]
      have hl1 : lookupJob (setJob s.jobs jid (timedOutJob j now)) jid =
          some (timedOutJob j now) := lookupJob_setJob_self hj
      have ha1 : (if s.activeJobId = some jid then none else s.activeJobId) ≠ some jid := by
        split_ifs with h2
        · simp
        · exact h2
      exact ⟨foldl_check_preserves now t _ jid _ hl1 (Or.inr rfl),
             foldl_check_active_ne now t _ jid ha1⟩
    · have hj1 : lookupJob (check_timeout s p.1 now).jobs jid = some j := by
        rw [check_timeout_lookup_ne _ _ _ _ (fun hh => hp1 hh.symm)]
        exact hj
      obtain ⟨q, hq, hq1⟩ := hex
      rcases List.mem_cons.mp hq with hqp | hqt
      · exact absurd (hqp ▸ hq1) hp1
      · exact ih _ hj1 ⟨q, hqt, hq1⟩

/-- C5: a Job with a non-null `started_at`, a non-terminal status, and
elapsed active time beyond `TIMEOUT_SECONDS` is observed by the next
read — `get_job`, `get_all_jobs`, or `get_active_job` — as forcibly
transitioned to FAILED with the timeout-specific error message,
`completed_at` set to the observation time, and the active slot released
if that Job held it. -/
theorem timeout_observed_on_read (s : JobStore) (jid : Nat) (j : Job) (t0 now : Nat)
    (hj : lookupJob s.jobs jid = some j) (hid : j.id = jid)
    (hst : j.startedAt = some t0)
    (hnt : ¬(j.status = .complete ∨ j.status = .failed))
    (he : now - t0 > TIMEOUT_SECONDS) :
    ((get_job s jid now).1 = some (timedOutJob j now) ∧
      (get_job s jid now).2.activeJobId ≠ some jid) ∧
    (timedOutJob j now ∈ (get_all_jobs s now).1 ∧
      (get_all_jobs s now).2.activeJobId ≠ some jid) ∧
    (s.activeJobId = some jid →
      (get_active_job s now).1 = some (timedOutJob j now) ∧
      (get_active_job s now).2.activeJobId ≠ some jid) ∧
    (timedOutJob j now).status = .failed ∧
    (timedOutJob j now).error = some "Job timed out after 30 minutes" ∧
    (timedOutJob j now).completedAt = some now := by
  have happ := check_timeout_applies s jid j t0 now hj hid hst hnt he
  have hset : lookupJob (setJob s.jobs jid (timedOutJob j now)) jid =
      some (timedOutJob j now) := lookupJob_setJob_self hj
  have hactive : (if s.activeJobId = some jid then none else s.activeJobId) ≠ some jid := by
    split_ifs with h2
    · simp
    · exact h2
  have hfold := foldl_check_applies now jid j t0 hid hst hnt he s.jobs s hj
    ⟨(jid, j), lookupJob_mem hj, rfl⟩
  refine ⟨⟨?_, ?_⟩, ⟨?_, ?_⟩, ?_, rfl, rfl, rfl⟩
  · simp only [get_job, hj, happ]
    exact hset
  · simp only [get_job, hj, happ]
    exact hactive
  · show timedOutJob j now ∈
      ((s.jobs.foldl (fun acc p => check_timeout acc p.1 now) s).jobs.map Prod.snd).reverse
    exact List.mem_reverse.mpr (List.mem_map_of_mem Prod.snd (lookupJob_mem hfold.1))
  · exact hfold.2
  · intro hA
    simp only [get_active_job, hA, hj, happ]
    exact ⟨hset, by simp⟩

/-- Witness for C5: a DOWNLOADING job started at time 0 observed at time
2000 (beyond the 1800-second ceiling). -/
theorem timeout_observed_on_read_witness :
    (get_job startedStore 0 2000).1 = some (timedOutJob startedJob 2000) ∧
    (get_job startedStore 0 2000).2.activeJobId ≠ some 0 ∧
    timedOutJob startedJob 2000 ∈ (get_all_jobs startedStore 2000).1 ∧
    (get_active_job startedStore 2000).1 = some (timedOutJob startedJob 2000) ∧
    (timedOutJob startedJob 2000).status = .failed := by
  have h := timeout_observed_on_read startedStore 0 startedJob 0 2000 (by decide) rfl rfl
    (by decide) (by decide)
  exact ⟨h.1.1, h.1.2, h.2.1.1, (h.2.2.1 rfl).1, h.2.2.2.1⟩

/-- Witness for C10 on a concrete one-job store driven to COMPLETE. -/
theorem terminal_update_completion_witness :
    completedAtFive.completedAt ≠ none ∧
    (update_job oneJobStore 0 { status := some .complete } 5).2.activeJobId ≠ some 0 ∧
    ((create_job (update_job oneJobStore 0 { status := some .complete } 5).2
        "x" "mp3" 9).1).isSome = true := by
  have h := terminal_update_completion oneJobStore 0 { status := some .complete } 5
    completedAtFive (by decide) (Or.inl (by decide))
  exact ⟨h.1, h.2.2.1, h.2.2.2 (by decide) "x" "mp3" 9⟩

end Yubal
